import Mathlib

set_option allowUnsafeReducibility true

/- The Batteries rational-number operations are `@[irreducible]`, which
blocks `decide`-style evaluation of the embedded program on concrete
inputs; restore the default reducibility locally (this changes elaborator
unfolding only — every proof is still checked by the kernel, which ignores
reducibility attributes). -/
attribute [local semireducible] Rat.add Rat.sub Rat.mul Rat.inv
  Rat.ofScientific

/-!
Shallow embedding of the Firestore helper module of `the_revault_vault`
(file `src/unnamed/part_000`).

Modelling conventions:
* JavaScript numbers are idealised as rationals (`ℚ`); `NaN` is a separate
  value.  ISO-8601 timestamp strings are modelled by the constructor
  `JsVal.time t` carrying their epoch-millisecond value `t`: the code only
  ever produces them with `new Date().toISOString()` and consumes them with
  `new Date(s).getTime()`, which round-trips to the same millisecond value.
  As strings they are non-empty (truthy) and `Number`-coerce to `NaN`.
* A Firestore document is an association list from field names to values;
  a missing key models a JavaScript `undefined` field read.
* Each collection is an association list from document ids to documents.
  Randomly generated ids (`generateId`, Firestore's `add`) are passed in as
  explicit parameters.
* Functions that `throw` in JavaScript return `Except String`.
-/

inductive JsVal where
  | str (s : String)
  | num (q : ℚ)
  | nan
  | undef
  | time (t : ℚ)
  deriving DecidableEq, Repr

/-- The numeric value of a run of decimal digit characters. -/
def digitsVal (l : List Char) : ℕ :=
  l.foldl (fun acc c => 10 * acc + (c.toNat - 48)) 0

namespace JsVal

/-- JavaScript truthiness of a value.  `time` values are non-empty strings,
hence truthy. -/
def truthy : JsVal → Bool
  | str s => s ≠ ""
  | num q => q ≠ 0
  | nan => false
  | undef => false
  | time _ => true

/-- Model of `Number(s)` on a trimmed string: the empty string is `0`, a plain signed
decimal numeral (optional fractional part) parses, anything else is `NaN`.
(Hex and exponent forms are not produced by this program.)  Implemented
over the character list so that it evaluates by reduction. -/
def strToNumber (s : String) : JsVal :=
  let cs := ((s.data.dropWhile Char.isWhitespace).reverse.dropWhile
    Char.isWhitespace).reverse
  if cs = [] then num 0
  else
    let (sign, body) :=
      match cs with
      | '-' :: r => ((-1 : ℚ), r)
      | '+' :: r => ((1 : ℚ), r)
      | _ => ((1 : ℚ), cs)
    let intPart := body.takeWhile Char.isDigit
    match body.drop intPart.length with
    | [] =>
        if intPart = [] then nan else num (sign * (digitsVal intPart : ℚ))
    | '.' :: r =>
        let fracPart := r.takeWhile Char.isDigit
        if r.drop fracPart.length = [] ∧ (intPart ≠ [] ∨ fracPart ≠ []) then
          num (sign * ((digitsVal intPart : ℚ) +
            (digitsVal fracPart : ℚ) / (10 : ℚ) ^ fracPart.length))
        else nan
    | _ => nan

/-- JavaScript `Number` coercion; the result is always `num _` or `nan`.
ISO timestamp strings are not plain numerals, so they coerce to `NaN`. -/
def toNumber : JsVal → JsVal
  | str s => strToNumber s
  | num q => num q
  | nan => nan
  | undef => nan
  | time _ => nan

/-- Rendering of a value as a string, used only by the string branch of `+`.
Integral numbers render as in JavaScript; non-integral rationals have no
exact JavaScript float counterpart and are rendered as fractions; `time`
values render an abstract form of their ISO text.  No claim exercises
this branch. -/
def toJsString : JsVal → String
  | str s => s
  | num q => if q.den = 1 then toString q.num else toString q
  | nan => "NaN"
  | undef => "undefined"
  | time t => "iso-" ++ toString t

def isStr : JsVal → Bool
  | str _ => true
  | _ => false

/-- JavaScript binary `+`: string concatenation when either operand is a
string, numeric addition otherwise (with `NaN` propagation). -/
def jsAdd (x y : JsVal) : JsVal :=
  if x.isStr ∨ y.isStr then str (x.toJsString ++ y.toJsString)
  else
    match x.toNumber, y.toNumber with
    | num a, num b => num (a + b)
    | _, _ => nan

/-- JavaScript binary `-`: both operands coerce to numbers. -/
def jsSub (x y : JsVal) : JsVal :=
  match x.toNumber, y.toNumber with
  | num a, num b => num (a - b)
  | _, _ => nan

/-- JavaScript binary `*`. -/
def jsMul (x y : JsVal) : JsVal :=
  match x.toNumber, y.toNumber with
  | num a, num b => num (a * b)
  | _, _ => nan

/-- JavaScript `/`.  Division by zero yields an infinity, which this model
does not represent; the only division in the program has its divisor
guarded by `|| 1`, so the zero-divisor branch is unreachable there. -/
def jsDiv (x y : JsVal) : JsVal :=
  match x.toNumber, y.toNumber with
  | num a, num b => if b = 0 then nan else num (a / b)
  | _, _ => nan

/-- JavaScript `>=` as used in the program: the left operand is always an
arithmetic result (number or `NaN`), so the string-string lexicographic
branch of `>=` never arises; comparisons involving `NaN` are false. -/
def jsGE (x y : JsVal) : Bool :=
  match x.toNumber, y.toNumber with
  | num a, num b => b ≤ a
  | _, _ => false

/-- Model of `Math.max` with number coercion; any `NaN` operand gives `NaN`. -/
def jsMax (x y : JsVal) : JsVal :=
  match x.toNumber, y.toNumber with
  | num a, num b => num (max a b)
  | _, _ => nan

/-- Model of `Math.ceil` with number coercion. -/
def jsCeil (x : JsVal) : JsVal :=
  match x.toNumber with
  | num a => num (⌈a⌉ : ℤ)
  | _ => nan

/-- JavaScript `x || y`. -/
def jsOr (x y : JsVal) : JsVal :=
  if x.truthy then x else y

/-- Model of `new Date(x).getTime()`: a number is taken as milliseconds, an ISO
timestamp string parses to its millisecond value, anything else is an
invalid date (`NaN`). -/
def dateGetTime : JsVal → JsVal
  | num t => num t
  | time t => num t
  | _ => nan

end JsVal

/-- A Firestore document: association list from field names to values
(first binding of a key wins on lookup; the operations below keep keys
unique). -/
abbrev Doc : Type := List (String × JsVal)

namespace Doc

/-- Reading a field; `none` models `undefined`. -/
def get (d : Doc) (k : String) : Option JsVal :=
  List.lookup k d

/-- Setting a field (used to build object literals and spreads): the new
binding overrides any old one.  (Key enumeration order is not observed by
the program's behaviour modelled here, only `get` is.) -/
def insert (d : Doc) (k : String) (v : JsVal) : Doc :=
  (k, v) :: List.filter (fun p => p.1 ≠ k) d

/-- Removing a field, as in the rest-destructuring `{ email, ...rest }`. -/
def erase (d : Doc) (k : String) : Doc :=
  List.filter (fun p => p.1 ≠ k) d

/-- The spread `{ ...d, ...e }`: fields of `e` override fields of `d`. -/
def merge (d e : Doc) : Doc :=
  e ++ List.filter (fun p => (List.lookup p.1 e).isNone) d

/-- Model of `order.f || 0`: the field if truthy, else `0`. -/
def gramsOr0 (d : Doc) (k : String) : JsVal :=
  match d.get k with
  | some v => if v.truthy then v else JsVal.num 0
  | none => JsVal.num 0

end Doc

/-- The record `{ id: doc.id, ...doc.data() }`. -/
def withId (id : String) (d : Doc) : Doc :=
  Doc.merge [("id", JsVal.str id)] d

/-- A keyed collection of documents. -/
abbrev Col : Type := List (String × Doc)

namespace Col

def get (c : Col) (id : String) : Option Doc :=
  List.lookup id c

/-- Firestore `add`: store a new document under a fresh id. -/
def add (c : Col) (id : String) (d : Doc) : Col :=
  c ++ [(id, d)]

/-- Firestore `ref.set(d)` (replace; creates the document if missing). -/
def put (c : Col) (id : String) (d : Doc) : Col :=
  match List.lookup id c with
  | some _ => List.map (fun p => if p.1 = id then (id, d) else p) c
  | none => c ++ [(id, d)]

/-- Firestore `ref.set(d, { merge: true })` and `ref.update(d)`: merge the
given fields into the stored document (`update` requires the document to
exist, which every call site in this program guarantees by reading it from
a snapshot of the same store first). -/
def mergeSet (c : Col) (id : String) (d : Doc) : Col :=
  match List.lookup id c with
  | some old => List.map (fun p => if p.1 = id then (id, Doc.merge old d) else p) c
  | none => c ++ [(id, d)]

end Col

/-- The Firestore database as used by the module. -/
structure Store where
  orders : Col
  redemptions : Col
  users : Col
  config : Col
  shops : Col
  deriving DecidableEq, Repr

def emptyStore : Store :=
  { orders := [], redemptions := [], users := [], config := [], shops := [] }

/-- Truthiness of a possibly-undefined field read. -/
def truthyOpt (o : Option JsVal) : Bool :=
  o.elim false JsVal.truthy

/-- Model of `createOrder(data)`.  The generated `_customId` and the Firestore
document id are passed in explicitly (they are random in the source). -/
def createOrder (data : Doc) (customId docId : String) (st : Store) :
    Store × Doc :=
  let order := data.insert "_customId" (JsVal.str customId)
  ({ st with orders := st.orders.add docId order }, withId docId order)

/-- Model of `listOrders(email?)`: note the filter is on the field `email`. -/
def listOrders (email : Option String) (st : Store) : List Doc :=
  let docs :=
    match email with
    | some e =>
        if e ≠ "" then
          st.orders.filter (fun (p : String × Doc) =>
            Doc.get p.2 "email" == some (JsVal.str e))
        else st.orders
    | none => st.orders
  docs.map (fun (p : String × Doc) => withId p.1 p.2)

/-- Model of `createRedemption(data)`. -/
def createRedemption (data : Doc) (customId docId : String) (st : Store) :
    Store × Doc :=
  let redemption := data.insert "_customId" (JsVal.str customId)
  ({ st with redemptions := st.redemptions.add docId redemption },
    withId docId redemption)

/-- Model of `approveRedemption(id)`. -/
def approveRedemption (id : String) (now : ℚ) (st : Store) :
    Store × Option Doc :=
  match Col.get st.redemptions id with
  | none => (st, none)
  | some data =>
      if data.get "status" = some (JsVal.str "approved") then
        (st, some (withId id data))
      else
        let reds := Col.mergeSet st.redemptions id
          [("status", JsVal.str "approved"), ("approvedAt", JsVal.time now)]
        let st' := { st with redemptions := reds }
        (st', (Col.get st'.redemptions id).map (withId id))

/-- Model of `createUser(data)` (the upsert).  A truthy non-string `email` would make
`db.collection('users').doc(email)` throw in Firestore; both failure modes
surface as `Except.error`. -/
def createUser (data : Doc) (now : ℚ) (st : Store) :
    Except String (Store × Doc) :=
  let rest := data.erase "email"
  match data.get "email" with
  | some (JsVal.str e) =>
      if e = "" then .error "Email is required to create a user"
      else
        let users' :=
          match Col.get st.users e with
          | some existing =>
              Col.mergeSet st.users e
                (Doc.merge (Doc.merge existing rest)
                  [("updatedAt", JsVal.time now)])
          | none =>
              Col.put st.users e
                (((Doc.merge [("email", JsVal.str e)] rest).insert
                  "createdAt" (JsVal.time now)).insert
                  "updatedAt" (JsVal.time now))
        let st' := { st with users := users' }
        .ok (st', withId e ((Col.get st'.users e).getD []))
  | some v =>
      if v.truthy then .error "document path must be a non-empty string"
      else .error "Email is required to create a user"
  | none => .error "Email is required to create a user"

/-- One iteration of `claimOrder`'s loop over the snapshot: update the
document only when its `userEmail` is not truthy, then re-read it. -/
def claimStep (email : String) (acc : Store × Option Doc)
    (p : String × Doc) : Store × Option Doc :=
  let st := acc.1
  let claimed := Col.mergeSet st.orders p.1 [("userEmail", JsVal.str email)]
  let st' :=
    if truthyOpt (Doc.get p.2 "userEmail") then st
    else { st with orders := claimed }
  (st', (Col.get st'.orders p.1).map (withId p.1))

/-- Model of `claimOrder(orderId, email)`. -/
def claimOrder (orderId email : String) (st : Store) :
    Except String (Store × Option Doc) :=
  if orderId = "" ∨ email = "" then
    .error "orderId and email are required"
  else
    let snapshot :=
      st.orders.filter (fun (p : String × Doc) =>
        Doc.get p.2 "orderId" == some (JsVal.str orderId))
    if snapshot.isEmpty then .ok (st, none)
    else .ok (snapshot.foldl (claimStep email) (st, none))

/-- Model of `getGoldPrice(defaultPrice)`: the default applies only when the
`goldPrice` document is absent; otherwise the document's `price` field is
returned verbatim (possibly `undefined`). -/
def getGoldPrice (defaultPrice : JsVal) (st : Store) : JsVal :=
  match Col.get st.config "goldPrice" with
  | none => defaultPrice
  | some d => (d.get "price").getD JsVal.undef

/-- Model of `parseFloat` on a string: skip leading whitespace, then parse the
longest prefix of the form sign, digits, optional point and digits; `NaN`
when no digit is consumed.  (Exponent forms are not produced by this
program.) -/
def parseFloatChars (s : String) : JsVal :=
  let cs := s.data.dropWhile Char.isWhitespace
  let (sign, body) :=
    match cs with
    | '-' :: r => ((-1 : ℚ), r)
    | '+' :: r => ((1 : ℚ), r)
    | _ => ((1 : ℚ), cs)
  let intPart := body.takeWhile Char.isDigit
  let fracPart :=
    match body.drop intPart.length with
    | '.' :: r => r.takeWhile Char.isDigit
    | _ => []
  if intPart = [] ∧ fracPart = [] then JsVal.nan
  else
    JsVal.num (sign * ((digitsVal intPart : ℚ) +
      (digitsVal fracPart : ℚ) / (10 : ℚ) ^ fracPart.length))

/-- Model of `parseFloat(v)`: numbers pass through, strings prefix-parse, `NaN` and
`undefined` stringify to non-numerals.  A timestamp string would
prefix-parse to its year field in JavaScript; the program's only call site
(`setGoldPrice`) is never given one, so it is modelled as the generic
non-numeral result. -/
def parseFloatJs : JsVal → JsVal
  | JsVal.num q => JsVal.num q
  | JsVal.str s => parseFloatChars s
  | JsVal.nan => JsVal.nan
  | JsVal.undef => JsVal.nan
  | JsVal.time _ => JsVal.nan

/-- Model of `setGoldPrice(price)`: merge-writes `parseFloat(price)` with a fresh
`updatedAt` and returns the argument; there is no validation and no
failure path. -/
def setGoldPrice (price : JsVal) (now : ℚ) (st : Store) : Store × JsVal :=
  let cfg := Col.mergeSet st.config "goldPrice"
    [("price", parseFloatJs price), ("updatedAt", JsVal.time now)]
  ({ st with config := cfg }, price)

/-- The orders returned for a user by the dashboard query
(`where('userEmail', '==', email)`). -/
def ordersFor (st : Store) (email : String) : List Doc :=
  (st.orders.filter (fun (p : String × Doc) =>
    Doc.get p.2 "userEmail" == some (JsVal.str email))).map
    (fun (p : String × Doc) => withId p.1 p.2)

/-- The dashboard's redemption query: `email` equal and `status` in
`['pending', 'approved']`.  The loop reads `doc.data()`, so no id is
attached. -/
def outstandingRedemptionsFor (st : Store) (email : String) : List Doc :=
  ((st.redemptions.filter (fun (p : String × Doc) =>
      Doc.get p.2 "email" == some (JsVal.str email) &&
      (Doc.get p.2 "status" == some (JsVal.str "pending") ||
       Doc.get p.2 "status" == some (JsVal.str "approved")))).map
    (fun (p : String × Doc) => p.2))

def thirtyDaysMs : ℚ := 30 * 24 * 60 * 60 * 1000

/-- The vesting condition of the dashboard loop:
`now - (order.createdAt ? new Date(order.createdAt).getTime() : now)
 >= thirtyDays`. -/
def vestedCheck (now : ℚ) (createdAt : Option JsVal) : Bool :=
  let createdTime :=
    match createdAt with
    | some v => if v.truthy then v.dateGetTime else JsVal.num now
    | none => JsVal.num now
  JsVal.jsGE (JsVal.jsSub (JsVal.num now) createdTime) (JsVal.num thirtyDaysMs)

/-- The three accumulators of the dashboard's order loop. -/
structure DashAcc where
  totalGrams : JsVal
  totalValue : JsVal
  redeemableGrams : JsVal
  deriving DecidableEq, Repr

/-- One iteration of the dashboard's order loop. -/
def orderStep (now : ℚ) (currentPrice : JsVal) (acc : DashAcc)
    (order : Doc) : DashAcc :=
  let g := Doc.gramsOr0 order "rewardGrams"
  { totalGrams := JsVal.jsAdd acc.totalGrams g,
    totalValue := JsVal.jsAdd acc.totalValue (JsVal.jsMul g currentPrice),
    redeemableGrams :=
      if vestedCheck now (Doc.get order "createdAt") then
        JsVal.jsAdd acc.redeemableGrams g
      else acc.redeemableGrams }

/-- Model of `totalValue.toFixed(2)` followed by `parseFloat`: rounds a number to
two decimals (idealising the decimal rounding of `toFixed`), keeps `NaN`,
and throws a `TypeError` on a non-number (which is how the function fails
when a string has leaked into the sum). -/
def toFixed2 : JsVal → Except String JsVal
  | JsVal.num q => .ok (JsVal.num ((round (q * 100) : ℤ) / 100))
  | JsVal.nan => .ok JsVal.nan
  | _ => .error "TypeError: toFixed is not a function"

structure Progress where
  current : JsVal
  nextMilestone : JsVal
  progressPercent : JsVal
  deriving DecidableEq, Repr

structure Dashboard where
  totalGrams : JsVal
  totalValue : JsVal
  redeemableGrams : JsVal
  currentPrice : JsVal
  orders : List Doc
  shops : List Doc
  progress : Progress
  deriving DecidableEq, Repr

/-- Model of `getDashboardData(email, defaultPrice)`; `now` is `Date.now()`. -/
def getDashboardData (email : String) (defaultPrice : JsVal) (now : ℚ)
    (st : Store) : Except String Dashboard :=
  let currentPrice := getGoldPrice defaultPrice st
  let orders := ordersFor st email
  let acc := orders.foldl (orderStep now currentPrice)
    ⟨JsVal.num 0, JsVal.num 0, JsVal.num 0⟩
  let redeemed := (outstandingRedemptionsFor st email).foldl
    (fun a (d : Doc) => JsVal.jsAdd a (Doc.gramsOr0 d "grams")) (JsVal.num 0)
  let redeemableGrams :=
    JsVal.jsMax (JsVal.jsSub acc.redeemableGrams redeemed) (JsVal.num 0)
  (toFixed2 acc.totalValue).map (fun totalValue =>
      let nextMilestone := JsVal.jsOr (JsVal.jsCeil acc.totalGrams) (JsVal.num 1)
      let progressPercent := JsVal.jsDiv acc.totalGrams nextMilestone
      { totalGrams := acc.totalGrams,
            totalValue := totalValue,
            redeemableGrams := redeemableGrams,
            currentPrice := currentPrice,
            orders := orders,
            shops := st.shops.map (fun (p : String × Doc) => withId p.1 p.2),
            progress :=
              { current := acc.totalGrams,
                nextMilestone := nextMilestone,
                progressPercent := progressPercent } })

/-! ### Specification-level readings of the ledger state

These definitions give the rational-number reading of the grams ledger
that the claims quantify over; they are compared against the dashboard's
accumulator loop. -/

/-- A grams field is a number when present (absent, `NaN` or `undefined`
reads also behave numerically via `|| 0`); only a string there would
derail the arithmetic.  The data model types grams as numeric
quantities. -/
def gramsFieldOk : Option JsVal → Bool
  | some (JsVal.str _) => false
  | some (JsVal.time _) => false
  | _ => true

/-- Every order's `rewardGrams` and every redemption's `grams` is
numeric. -/
def storeGramsOk (st : Store) : Bool :=
  st.orders.all (fun p => gramsFieldOk (Doc.get p.2 "rewardGrams")) &&
  st.redemptions.all (fun p => gramsFieldOk (Doc.get p.2 "grams"))

def isNumOrNan : JsVal → Bool
  | JsVal.num _ => true
  | JsVal.nan => true
  | _ => false

/-- The value a grams field contributes under `|| 0`. -/
def qGrams (d : Doc) (k : String) : ℚ :=
  match Doc.get d k with
  | some (JsVal.num q) => q
  | _ => 0

def sumGramsField (k : String) (l : List Doc) : ℚ :=
  l.foldr (fun d s => qGrams d k + s) 0

/-- Sum of the grams of the user's orders that pass the vesting check. -/
def vestedGramsSum (st : Store) (email : String) (now : ℚ) : ℚ :=
  sumGramsField "rewardGrams"
    ((ordersFor st email).filter
      (fun d => vestedCheck now (Doc.get d "createdAt")))

/-- Sum of the grams of the user's pending or approved redemptions. -/
def outstandingGramsSum (st : Store) (email : String) : ℚ :=
  sumGramsField "grams" (outstandingRedemptionsFor st email)

/-! ### Concrete stores used by witnesses and counterexamples -/

/-- One user with 10 vested grams, a pending redemption of 2 grams and an
approved redemption of 3 grams. -/
def scenarioStore : Store :=
  { emptyStore with
    orders := [("o1",
      [("userEmail", JsVal.str "u@x.com"),
       ("rewardGrams", JsVal.num 10),
       ("createdAt", JsVal.time 0)])],
    redemptions := [
      ("r1", [("email", JsVal.str "u@x.com"),
              ("grams", JsVal.num 2),
              ("status", JsVal.str "pending")]),
      ("r2", [("email", JsVal.str "u@x.com"),
              ("grams", JsVal.num 3),
              ("status", JsVal.str "approved")])] }

/-- A store with one order already claimed by `first@x.com`. -/
def claimedStore : Store :=
  { emptyStore with
    orders := [("o1",
      [("orderId", JsVal.str "X"),
       ("userEmail", JsVal.str "first@x.com"),
       ("rewardGrams", JsVal.num 4)])] }

/-- A store with one pending redemption. -/
def pendingStore : Store :=
  { emptyStore with
    redemptions := [("r1",
      [("email", JsVal.str "u@x.com"),
       ("grams", JsVal.num 2),
       ("status", JsVal.str "pending")])] }

/-- A user record created at time 0. -/
def userStore : Store :=
  { emptyStore with
    users := [("e@x.com",
      [("email", JsVal.str "e@x.com"),
       ("displayName", JsVal.str "A"),
       ("createdAt", JsVal.time 0),
       ("updatedAt", JsVal.time 0)])] }

/-- A gold-price document that exists but has no `price` field. -/
def priceLessStore : Store :=
  { emptyStore with
    config := [("goldPrice", [("updatedAt", JsVal.time 3)])] }

/-- The field update written by `approveRedemption`'s pending branch. -/
def approvedUpd (now : ℚ) : Doc :=
  [("status", JsVal.str "approved"), ("approvedAt", JsVal.time now)]

/-- The store after `approveRedemption`'s pending branch writes. -/
def approveStore (st : Store) (id : String) (now : ℚ) : Store :=
  { st with redemptions := Col.mergeSet st.redemptions id (approvedUpd now) }

/-! ### Association-list lemmas -/

section AssocLemmas

variable {β : Type}

theorem lookup_append (k : String) (l₁ l₂ : List (String × β)) :
    List.lookup k (l₁ ++ l₂) =
      match List.lookup k l₁ with
      | some v => some v
      | none => List.lookup k l₂ := by
  induction l₁ with
  | nil => simp
  | cons p t ih =>
      by_cases h : k = p.1
      · simp [List.lookup, h]
      · simp only [List.cons_append, List.lookup,
          beq_eq_false_iff_ne.mpr h]
        rw [show t.append l₂ = t ++ l₂ from rfl, ih]

theorem lookup_filter_of_true (k : String) (l : List (String × β))
    (pred : String × β → Bool) (h : ∀ v, pred (k, v) = true) :
    List.lookup k (List.filter pred l) = List.lookup k l := by
  induction l with
  | nil => simp
  | cons p t ih =>
      by_cases hk : k = p.1
      · subst hk
        have : pred p = true := by
          have := h p.2
          simpa using this
        simp [List.filter, this, List.lookup]
      · cases hp : pred p
        · simp only [List.filter, hp, List.lookup,
            beq_eq_false_iff_ne.mpr hk, ih]
        · simp only [List.filter, hp, List.lookup,
            beq_eq_false_iff_ne.mpr hk, ih]

theorem lookup_filter_of_false (k : String) (l : List (String × β))
    (pred : String × β → Bool) (h : ∀ v, pred (k, v) = false) :
    List.lookup k (List.filter pred l) = none := by
  induction l with
  | nil => simp
  | cons p t ih =>
      by_cases hk : k = p.1
      · subst hk
        have : pred p = false := by
          have := h p.2
          simpa using this
        simp [List.filter, this, ih]
      · cases hp : pred p
        · simp only [List.filter, hp, ih]
        · simp only [List.filter, hp, List.lookup,
            beq_eq_false_iff_ne.mpr hk, ih]

theorem lookup_eq_of_mem_nodup {l : List (String × β)} {k : String} {v : β}
    (hnd : (l.map Prod.fst).Nodup) (hmem : (k, v) ∈ l) :
    List.lookup k l = some v := by
  induction l with
  | nil => simp at hmem
  | cons p t ih =>
      simp only [List.map_cons, List.nodup_cons] at hnd
      rcases List.mem_cons.mp hmem with h | h
      · rw [← h]
        simp [List.lookup]
      · have hk : k ≠ p.1 := by
          intro hkp
          exact hnd.1 (by
            rw [← hkp]
            exact List.mem_map_of_mem Prod.fst h)
        simp only [List.lookup, beq_eq_false_iff_ne.mpr hk]
        exact ih hnd.2 h

end AssocLemmas

/-! ### Document lemmas -/

theorem lookup_cons_eval {β : Type} (k a : String) (b : β)
    (t : List (String × β)) :
    List.lookup k ((a, b) :: t) = if k = a then some b else List.lookup k t := by
  by_cases h : k = a
  · simp [List.lookup, h]
  · simp [List.lookup, beq_eq_false_iff_ne.mpr h, h]

theorem lookup_nil_eval {β : Type} (k : String) :
    List.lookup k ([] : List (String × β)) = none := rfl

theorem Doc.get_cons (a : String) (v : JsVal) (t : Doc) (k : String) :
    Doc.get ((a, v) :: t) k = if k = a then some v else Doc.get t k :=
  lookup_cons_eval k a v t

theorem Doc.get_nil (k : String) : Doc.get [] k = none := rfl

theorem Doc.get_insert (d : Doc) (k k' : String) (v : JsVal) :
    Doc.get (Doc.insert d k v) k' = if k' = k then some v else Doc.get d k' := by
  by_cases h : k' = k
  · simp [Doc.get, Doc.insert, List.lookup, h]
  · simp only [Doc.get, Doc.insert, List.lookup, beq_eq_false_iff_ne.mpr h, if_neg h]
    exact lookup_filter_of_true k' d _ (fun v => by simp [h])

theorem Doc.get_merge (d e : Doc) (k : String) :
    Doc.get (Doc.merge d e) k =
      match Doc.get e k with
      | some v => some v
      | none => Doc.get d k := by
  unfold Doc.merge Doc.get
  rw [lookup_append]
  cases he : List.lookup k e with
  | some v => simp
  | none =>
      simp only
      exact lookup_filter_of_true k d _ (fun v => by simp [he])

theorem Doc.get_erase (d : Doc) (k k' : String) :
    Doc.get (Doc.erase d k) k' = if k' = k then none else Doc.get d k' := by
  by_cases h : k' = k
  · subst h
    simp only [Doc.get, Doc.erase, if_pos rfl]
    exact lookup_filter_of_false k' d _ (fun v => by simp)
  · simp only [Doc.get, Doc.erase, if_neg h]
    exact lookup_filter_of_true k' d _ (fun v => by simp [h])

theorem get_withId (i : String) (d : Doc) (k : String) (h : k ≠ "id") :
    Doc.get (withId i d) k = Doc.get d k := by
  unfold withId
  rw [Doc.get_merge]
  cases hd : Doc.get d k with
  | some v => simp
  | none => simp [Doc.get, List.lookup, beq_eq_false_iff_ne.mpr h]

/-! ### Collection lemmas -/

theorem lookup_overwrite_self {β : Type} (l : List (String × β)) (id : String)
    (x : β) (hs : (List.lookup id l).isSome) :
    List.lookup id (l.map (fun p => if p.1 = id then (id, x) else p)) = some x := by
  induction l with
  | nil => simp at hs
  | cons p t ih =>
      obtain ⟨a, b⟩ := p
      simp only [List.map_cons]
      by_cases h : a = id
      · rw [if_pos h]
        simp [List.lookup]
      · rw [if_neg h]
        have hne : id ≠ a := fun hh => h hh.symm
        simp only [List.lookup, beq_eq_false_iff_ne.mpr hne] at hs ⊢
        exact ih hs

theorem lookup_overwrite_ne {β : Type} (l : List (String × β)) (id i : String)
    (x : β) (h : i ≠ id) :
    List.lookup i (l.map (fun p => if p.1 = id then (id, x) else p)) =
      List.lookup i l := by
  induction l with
  | nil => simp
  | cons p t ih =>
      obtain ⟨a, b⟩ := p
      simp only [List.map_cons]
      by_cases hp : a = id
      · rw [if_pos hp]
        have hne : i ≠ a := by rw [hp]; exact h
        simp only [List.lookup, beq_eq_false_iff_ne.mpr h,
          beq_eq_false_iff_ne.mpr hne, ih]
      · rw [if_neg hp]
        by_cases hi : i = a
        · simp [List.lookup, hi]
        · simp only [List.lookup, beq_eq_false_iff_ne.mpr hi, ih]

theorem Col.get_mergeSet_self (c : Col) (id : String) (d old : Doc)
    (h : Col.get c id = some old) :
    Col.get (Col.mergeSet c id d) id = some (Doc.merge old d) := by
  unfold Col.mergeSet
  rw [show List.lookup id c = some old from h]
  exact lookup_overwrite_self c id _ (by simp [Col.get] at h; simp [h])

theorem Col.get_mergeSet_new (c : Col) (id : String) (d : Doc)
    (h : Col.get c id = none) :
    Col.get (Col.mergeSet c id d) id = some d := by
  unfold Col.mergeSet
  rw [show List.lookup id c = none from h]
  unfold Col.get
  rw [lookup_append]
  rw [show List.lookup id c = none from h]
  simp [List.lookup]

theorem Col.get_mergeSet_ne (c : Col) (id i : String) (d : Doc)
    (h : i ≠ id) :
    Col.get (Col.mergeSet c id d) i = Col.get c i := by
  unfold Col.mergeSet
  cases hc : List.lookup id c with
  | some old => exact lookup_overwrite_ne c id i _ h
  | none =>
      unfold Col.get
      rw [lookup_append]
      cases hi : List.lookup i c with
      | some v => simp
      | none => simp [List.lookup, beq_eq_false_iff_ne.mpr h]

theorem Col.get_put_self (c : Col) (id : String) (d : Doc) :
    Col.get (Col.put c id d) id = some d := by
  unfold Col.put
  cases hc : List.lookup id c with
  | some old => exact lookup_overwrite_self c id _ (by simp [hc])
  | none =>
      unfold Col.get
      rw [lookup_append, hc]
      simp [List.lookup]

/-! ### JavaScript value lemmas -/

theorem isNumOrNan_strToNumber (s : String) :
    isNumOrNan (JsVal.strToNumber s) = true := by
  simp only [JsVal.strToNumber]
  repeat' split
  all_goals rfl

theorem isNumOrNan_toNumber (v : JsVal) : isNumOrNan v.toNumber = true := by
  cases v with
  | str s => exact isNumOrNan_strToNumber s
  | num q => rfl
  | nan => rfl
  | undef => rfl
  | time t => rfl

theorem isStr_eq_false_of_isNumOrNan {v : JsVal} (h : isNumOrNan v = true) :
    v.isStr = false := by
  cases v <;> first | rfl | exact absurd h (by simp [isNumOrNan])

theorem isNumOrNan_jsMul (x y : JsVal) : isNumOrNan (JsVal.jsMul x y) = true := by
  unfold JsVal.jsMul
  split
  · rfl
  · rfl

theorem isNumOrNan_jsAdd {x y : JsVal} (hx : isNumOrNan x = true)
    (hy : isNumOrNan y = true) : isNumOrNan (JsVal.jsAdd x y) = true := by
  unfold JsVal.jsAdd
  rw [if_neg (by
    simp [isStr_eq_false_of_isNumOrNan hx, isStr_eq_false_of_isNumOrNan hy])]
  split
  · rfl
  · rfl

theorem jsAdd_num (a b : ℚ) :
    JsVal.jsAdd (JsVal.num a) (JsVal.num b) = JsVal.num (a + b) := rfl

theorem jsSub_num (a b : ℚ) :
    JsVal.jsSub (JsVal.num a) (JsVal.num b) = JsVal.num (a - b) := rfl

theorem jsMax_num (a b : ℚ) :
    JsVal.jsMax (JsVal.num a) (JsVal.num b) = JsVal.num (max a b) := rfl

theorem jsGE_num (a b : ℚ) :
    JsVal.jsGE (JsVal.num a) (JsVal.num b) = decide (b ≤ a) := rfl

/-! ### Dashboard loop lemmas -/

theorem gramsOr0_eq_num {d : Doc} {k : String}
    (h : gramsFieldOk (Doc.get d k) = true) :
    Doc.gramsOr0 d k = JsVal.num (qGrams d k) := by
  unfold Doc.gramsOr0 qGrams
  cases hd : Doc.get d k with
  | none => rfl
  | some v =>
      cases v with
      | num q =>
          by_cases hq : q = 0
          · subst hq
            simp [JsVal.truthy]
          · simp [JsVal.truthy, hq]
      | nan => rfl
      | undef => rfl
      | str s =>
          rw [hd] at h
          exact absurd h (by simp [gramsFieldOk])
      | time t =>
          rw [hd] at h
          exact absurd h (by simp [gramsFieldOk])

theorem sumGramsField_cons (k : String) (d : Doc) (l : List Doc) :
    sumGramsField k (d :: l) = qGrams d k + sumGramsField k l := rfl

theorem isNumOrNan_cases {v : JsVal} (h : isNumOrNan v = true) :
    (∃ q : ℚ, v = JsVal.num q) ∨ v = JsVal.nan := by
  cases v with
  | num q => exact Or.inl ⟨q, rfl⟩
  | nan => exact Or.inr rfl
  | str s => exact absurd h (by simp [isNumOrNan])
  | undef => exact absurd h (by simp [isNumOrNan])
  | time t => exact absurd h (by simp [isNumOrNan])

theorem orderFold_spec (now : ℚ) (price : JsVal) (l : List Doc)
    (h : ∀ d ∈ l, gramsFieldOk (Doc.get d "rewardGrams") = true) :
    ∀ (a b : ℚ) (v : JsVal), isNumOrNan v = true →
      (List.foldl (orderStep now price) ⟨JsVal.num a, v, JsVal.num b⟩ l).totalGrams
          = JsVal.num (a + sumGramsField "rewardGrams" l) ∧
      (List.foldl (orderStep now price) ⟨JsVal.num a, v, JsVal.num b⟩ l).redeemableGrams
          = JsVal.num (b + sumGramsField "rewardGrams"
              (List.filter (fun d => vestedCheck now (Doc.get d "createdAt")) l)) ∧
      isNumOrNan
        (List.foldl (orderStep now price) ⟨JsVal.num a, v, JsVal.num b⟩ l).totalValue
          = true := by
  induction l with
  | nil =>
      intro a b v hv
      refine ⟨by simp [sumGramsField], by simp [sumGramsField], by simpa using hv⟩
  | cons d t ih =>
      intro a b v hv
      have hd := h d (List.mem_cons_self d t)
      have ht : ∀ x ∈ t, gramsFieldOk (Doc.get x "rewardGrams") = true :=
        fun x hx => h x (List.mem_cons_of_mem d hx)
      have hg := gramsOr0_eq_num hd
      have hstep : orderStep now price ⟨JsVal.num a, v, JsVal.num b⟩ d =
          ⟨JsVal.num (a + qGrams d "rewardGrams"),
           JsVal.jsAdd v (JsVal.jsMul (JsVal.num (qGrams d "rewardGrams")) price),
           if vestedCheck now (Doc.get d "createdAt") then
             JsVal.num (b + qGrams d "rewardGrams") else JsVal.num b⟩ := by
        simp only [orderStep, hg, jsAdd_num]
      have hv' : isNumOrNan
          (JsVal.jsAdd v (JsVal.jsMul (JsVal.num (qGrams d "rewardGrams")) price))
            = true :=
        isNumOrNan_jsAdd hv (isNumOrNan_jsMul _ _)
      rw [List.foldl_cons, hstep]
      by_cases hvc : vestedCheck now (Doc.get d "createdAt")
      · rw [if_pos hvc]
        obtain ⟨h1, h2, h3⟩ :=
          ih ht (a + qGrams d "rewardGrams") (b + qGrams d "rewardGrams") _ hv'
        have hfc : List.filter
            (fun d => vestedCheck now (Doc.get d "createdAt")) (d :: t) =
              d :: List.filter
                (fun d => vestedCheck now (Doc.get d "createdAt")) t :=
          List.filter_cons_of_pos hvc
        refine ⟨?_, ?_, h3⟩
        · rw [h1, sumGramsField_cons, add_assoc]
        · rw [h2, hfc, sumGramsField_cons, add_assoc]
      · rw [if_neg hvc]
        obtain ⟨h1, h2, h3⟩ := ih ht (a + qGrams d "rewardGrams") b _ hv'
        have hfc : List.filter
            (fun d => vestedCheck now (Doc.get d "createdAt")) (d :: t) =
              List.filter
                (fun d => vestedCheck now (Doc.get d "createdAt")) t :=
          List.filter_cons_of_neg (by simpa using hvc)
        refine ⟨?_, ?_, h3⟩
        · rw [h1, sumGramsField_cons, add_assoc]
        · rw [h2, hfc]

theorem redeemFold_spec (l : List Doc)
    (h : ∀ d ∈ l, gramsFieldOk (Doc.get d "grams") = true) :
    ∀ c : ℚ,
      List.foldl (fun a d => JsVal.jsAdd a (Doc.gramsOr0 d "grams"))
        (JsVal.num c) l = JsVal.num (c + sumGramsField "grams" l) := by
  induction l with
  | nil =>
      intro c
      simp [sumGramsField]
  | cons d t ih =>
      intro c
      have hd := h d (List.mem_cons_self d t)
      have ht : ∀ x ∈ t, gramsFieldOk (Doc.get x "grams") = true :=
        fun x hx => h x (List.mem_cons_of_mem d hx)
      rw [List.foldl_cons, gramsOr0_eq_num hd, jsAdd_num, ih ht,
        sumGramsField_cons, add_assoc]

theorem ordersFor_gramsOk {st : Store} (h : storeGramsOk st = true)
    (email : String) :
    ∀ d ∈ ordersFor st email, gramsFieldOk (Doc.get d "rewardGrams") = true := by
  intro d hd
  unfold ordersFor at hd
  obtain ⟨p, hp, rfl⟩ := List.mem_map.mp hd
  have hp' := (List.mem_filter.mp hp).1
  unfold storeGramsOk at h
  rw [Bool.and_eq_true] at h
  have hok := List.all_eq_true.mp h.1 p hp'
  rw [get_withId _ _ _ (by decide)]
  exact hok

theorem outstanding_gramsOk {st : Store} (h : storeGramsOk st = true)
    (email : String) :
    ∀ d ∈ outstandingRedemptionsFor st email,
      gramsFieldOk (Doc.get d "grams") = true := by
  intro d hd
  unfold outstandingRedemptionsFor at hd
  obtain ⟨p, hp, rfl⟩ := List.mem_map.mp hd
  have hp' := (List.mem_filter.mp hp).1
  unfold storeGramsOk at h
  rw [Bool.and_eq_true] at h
  exact List.all_eq_true.mp h.2 p hp'

/-! ### Claim theorems -/

/-- C1: for every user email, the dashboard computed by `getDashboardData`
satisfies `redeemableGrams = max(vestedGramsSum − outstandingGramsSum, 0)`,
where the outstanding sum ranges over that user's redemptions whose status
is `pending` or `approved`; in particular it is never negative.  Grams
fields are numeric, as the data model specifies. -/
theorem C1_redeemable_formula (email : String) (dp : JsVal) (now : ℚ)
    (st : Store) (h : storeGramsOk st = true) :
    ∃ d : Dashboard, getDashboardData email dp now st = Except.ok d ∧
      d.redeemableGrams = JsVal.num
        (max (vestedGramsSum st email now - outstandingGramsSum st email) 0) ∧
      ∀ q : ℚ, d.redeemableGrams = JsVal.num q → 0 ≤ q := by
  obtain ⟨h1, h2, h3⟩ := orderFold_spec now (getGoldPrice dp st)
    (ordersFor st email) (ordersFor_gramsOk h email) 0 0 (JsVal.num 0) rfl
  have hr := redeemFold_spec (outstandingRedemptionsFor st email)
    (outstanding_gramsOk h email) 0
  have hfix : ∃ w, toFixed2 ((List.foldl (orderStep now (getGoldPrice dp st))
      ⟨JsVal.num 0, JsVal.num 0, JsVal.num 0⟩
      (ordersFor st email)).totalValue) = Except.ok w := by
    rcases isNumOrNan_cases h3 with ⟨q, hq⟩ | hq
    · rw [hq]
      exact ⟨_, rfl⟩
    · rw [hq]
      exact ⟨_, rfl⟩
  obtain ⟨w, hw⟩ := hfix
  simp only [getDashboardData]
  rw [hw]
  simp only [Except.map]
  refine ⟨_, rfl, ?_, ?_⟩
  · dsimp only
    rw [h2, hr, jsSub_num, jsMax_num]
    simp [vestedGramsSum, outstandingGramsSum]
  · dsimp only
    rw [h2, hr, jsSub_num, jsMax_num]
    intro q' hq'
    simp only [JsVal.num.injEq] at hq'
    rw [← hq']
    exact le_max_right _ _

/-- Witness for C1: the spec's scenario — 10 vested grams, one pending
redemption of 2 grams and one approved redemption of 3 grams — gives
`redeemableGrams = 5`. -/
theorem C1_redeemable_formula_witness :
    storeGramsOk scenarioStore = true ∧
    ∃ d : Dashboard,
      getDashboardData "u@x.com" (JsVal.num 50) 2592000000 scenarioStore
        = Except.ok d ∧ d.redeemableGrams = JsVal.num 5 := by
  refine ⟨by decide, ?_⟩
  obtain ⟨d, hok, heq, _⟩ :=
    C1_redeemable_formula "u@x.com" (JsVal.num 50) 2592000000 scenarioStore
      (by decide)
  refine ⟨d, hok, ?_⟩
  rw [heq]
  have hv : vestedGramsSum scenarioStore "u@x.com" 2592000000 = 10 := by decide
  have ho : outstandingGramsSum scenarioStore "u@x.com" = 5 := by decide
  rw [hv, ho]
  norm_num

/-- C2: in `getDashboardData`'s vesting rule an order's grams are added to
the vested accumulator exactly when `vestedCheck` holds, and `vestedCheck`
holds iff `now - createdAt ≥ 30·24·60·60·1000` ms: exactly 30 days in the
past is vested, one millisecond less is not, and a missing `createdAt` is
treated as earned now and is not vested. -/
theorem C2_vesting_boundary (now t : ℚ) :
    (∀ (price : JsVal) (acc : DashAcc) (order : Doc),
      (orderStep now price acc order).redeemableGrams =
        if vestedCheck now (Doc.get order "createdAt") then
          JsVal.jsAdd acc.redeemableGrams (Doc.gramsOr0 order "rewardGrams")
        else acc.redeemableGrams) ∧
    (vestedCheck now (some (JsVal.time t)) = true ↔ thirtyDaysMs ≤ now - t) ∧
    vestedCheck now (some (JsVal.time (now - thirtyDaysMs))) = true ∧
    vestedCheck now (some (JsVal.time (now - thirtyDaysMs + 1))) = false ∧
    vestedCheck now none = false := by
  have hiff : ∀ u : ℚ,
      vestedCheck now (some (JsVal.time u)) = true ↔ thirtyDaysMs ≤ now - u := by
    intro u
    unfold vestedCheck
    simp [JsVal.truthy, JsVal.dateGetTime, JsVal.jsSub, JsVal.toNumber,
      JsVal.jsGE]
  refine ⟨fun _ _ _ => rfl, hiff t, ?_, ?_, ?_⟩
  · rw [hiff]
    simp
  · cases hb : vestedCheck now (some (JsVal.time (now - thirtyDaysMs + 1))) with
    | false => rfl
    | true =>
        exfalso
        have hc := (hiff _).mp hb
        unfold thirtyDaysMs at hc
        linarith
  · unfold vestedCheck
    simp [JsVal.jsSub, JsVal.toNumber, JsVal.jsGE, thirtyDaysMs]

/-- Witness for C2 at `now = 2592000000`, `t = 0` (an order created at the
epoch, read exactly 30 days later). -/
theorem C2_vesting_boundary_witness :
    vestedCheck 2592000000 (some (JsVal.time 0)) = true ∧
    vestedCheck 2592000000 (some (JsVal.time 1)) = false ∧
    vestedCheck 2592000000 none = false := by
  obtain ⟨-, hiff, hex, hless, hnone⟩ := C2_vesting_boundary 2592000000 0
  refine ⟨(hiff).mpr (by norm_num [thirtyDaysMs]), ?_, hnone⟩
  have := (C2_vesting_boundary 2592000000 1).2.1
  cases hb : vestedCheck 2592000000 (some (JsVal.time 1)) with
  | false => rfl
  | true =>
      exfalso
      have hc := this.mp hb
      norm_num [thirtyDaysMs] at hc

/-- Invariant of `claimOrder`'s loop: a document whose snapshot entry has a
truthy `userEmail` is never updated, so its stored value survives the whole
loop. -/
theorem claimFold_get (email docId : String) (d₀ : Doc)
    (htr : truthyOpt (Doc.get d₀ "userEmail") = true)
    (l : List (String × Doc))
    (hl : ∀ p ∈ l, p.1 = docId → p.2 = d₀) :
    ∀ acc : Store × Option Doc, Col.get acc.1.orders docId = some d₀ →
      Col.get (l.foldl (claimStep email) acc).1.orders docId = some d₀ := by
  induction l with
  | nil => exact fun acc h => h
  | cons p t ih =>
      intro acc hacc
      rw [List.foldl_cons]
      apply ih (fun x hx hid => hl x (List.mem_cons_of_mem p hx) hid)
      by_cases hp : p.1 = docId
      · have hpd : p.2 = d₀ := hl p (List.mem_cons_self p t) hp
        unfold claimStep
        rw [hpd, htr]
        simpa using hacc
      · by_cases hc : truthyOpt (Doc.get p.2 "userEmail") = true
        · unfold claimStep
          rw [hc]
          simpa using hacc
        · unfold claimStep
          rw [Bool.not_eq_true] at hc
          rw [hc]
          simp only [Bool.false_eq_true, if_false]
          rw [Col.get_mergeSet_ne _ _ _ _ (fun hh => hp hh.symm)]
          exact hacc

/-- If every document in the snapshot already has a truthy `userEmail`,
the loop writes nothing. -/
theorem claimFold_noop (email : String) (l : List (String × Doc))
    (hl : ∀ p ∈ l, truthyOpt (Doc.get p.2 "userEmail") = true) :
    ∀ acc : Store × Option Doc, (l.foldl (claimStep email) acc).1 = acc.1 := by
  induction l with
  | nil => exact fun acc => rfl
  | cons p t ih =>
      intro acc
      rw [List.foldl_cons]
      rw [ih (fun x hx => hl x (List.mem_cons_of_mem p hx))]
      unfold claimStep
      rw [hl p (List.mem_cons_self p t)]
      simp

/-- C3: once an order's `userEmail` is set (truthy), no later `claimOrder`
changes it — a claim with a different email leaves the original claimant,
and when every matching order is already claimed the store is unchanged and
a single already-claimed match is returned as stored (same-email re-claim
returns the order unchanged).  Collections key documents uniquely. -/
theorem C3_claim_first_wins (st : Store) (orderId email : String)
    (hnd : (st.orders.map Prod.fst).Nodup) :
    ∀ res, claimOrder orderId email st = Except.ok res →
      (∀ docId d₀, Col.get st.orders docId = some d₀ →
        truthyOpt (Doc.get d₀ "userEmail") = true →
        Col.get res.1.orders docId = some d₀) ∧
      ((∀ p ∈ st.orders, Doc.get p.2 "orderId" = some (JsVal.str orderId) →
          truthyOpt (Doc.get p.2 "userEmail") = true) →
        res.1 = st) ∧
      (∀ docId d₀, st.orders = [(docId, d₀)] →
        Doc.get d₀ "orderId" = some (JsVal.str orderId) →
        truthyOpt (Doc.get d₀ "userEmail") = true →
        res = (st, some (withId docId d₀))) := by
  intro res hres
  unfold claimOrder at hres
  by_cases hv : orderId = "" ∨ email = ""
  · rw [if_pos hv] at hres
    exact absurd hres (by simp)
  · rw [if_neg hv] at hres
    by_cases hemp : (st.orders.filter (fun (p : String × Doc) =>
        Doc.get p.2 "orderId" == some (JsVal.str orderId))).isEmpty
    · rw [if_pos hemp] at hres
      have : res = (st, none) := by
        simpa using hres.symm
      subst this
      refine ⟨fun docId d₀ h _ => h, fun _ => rfl, ?_⟩
      intro docId d₀ heq hoid htr
      rw [heq] at hemp
      simp [List.filter, hoid] at hemp
    · rw [if_neg hemp] at hres
      have hres' : res = (st.orders.filter (fun (p : String × Doc) =>
          Doc.get p.2 "orderId" == some (JsVal.str orderId))).foldl
            (claimStep email) (st, none) := by
        simpa using hres.symm
      refine ⟨?_, ?_, ?_⟩
      · intro docId d₀ hget htr
        rw [hres']
        apply claimFold_get email docId d₀ htr _ ?_ (st, none) hget
        intro p hp hid
        have hmem := (List.mem_filter.mp hp).1
        have hmem' : (docId, p.2) ∈ st.orders := by
          rw [← hid]
          exact hmem
        have hp2 : List.lookup docId st.orders = some p.2 :=
          lookup_eq_of_mem_nodup hnd hmem'
        exact Option.some.inj (hp2.symm.trans hget)
      · intro hall
        rw [hres']
        refine claimFold_noop email _ (fun p hp => ?_) (st, none)
        exact hall p (List.mem_filter.mp hp).1
          (by simpa using (List.mem_filter.mp hp).2)
      · intro docId d₀ heq hoid htr
        rw [hres', heq]
        have hfilter : List.filter (fun (p : String × Doc) =>
            Doc.get p.2 "orderId" == some (JsVal.str orderId)) [(docId, d₀)]
              = [(docId, d₀)] := by
          simp [List.filter, hoid]
        rw [hfilter, List.foldl_cons, List.foldl_nil]
        unfold claimStep
        rw [htr]
        simp [Col.get, heq, lookup_cons_eval]

/-- Witness for C3: an order already claimed by `first@x.com` is claimed
again with `second@x.com`; the stored `userEmail` stays `first@x.com` and
the store is unchanged. -/
theorem C3_claim_first_wins_witness :
    ∃ res, claimOrder "X" "second@x.com" claimedStore = Except.ok res ∧
      Col.get res.1.orders "o1" = some
        [("orderId", JsVal.str "X"),
         ("userEmail", JsVal.str "first@x.com"),
         ("rewardGrams", JsVal.num 4)] ∧
      res.1 = claimedStore := by
  have hres : claimOrder "X" "second@x.com" claimedStore =
      Except.ok (claimedStore, some (withId "o1"
        [("orderId", JsVal.str "X"),
         ("userEmail", JsVal.str "first@x.com"),
         ("rewardGrams", JsVal.num 4)])) := rfl
  obtain ⟨h1, h2, -⟩ :=
    C3_claim_first_wins claimedStore "X" "second@x.com" (by decide) _ hres
  exact ⟨_, hres, h1 "o1" _ (by decide) (by decide), h2 (by decide)⟩

/-- C4: `approveRedemption` returns the not-found sentinel for a missing
id; returns an already-approved record unchanged (store untouched, so
`approvedAt` is not overwritten); otherwise sets `status = approved` and
`approvedAt = now`; and a second approve call yields exactly the first
call's output (idempotence) — in particular there is no transition out of
`approved`. -/
theorem C4_approve_idempotent (st : Store) (id : String) (now now2 : ℚ) :
    (Col.get st.redemptions id = none → approveRedemption id now st = (st, none)) ∧
    (∀ d, Col.get st.redemptions id = some d →
      Doc.get d "status" = some (JsVal.str "approved") →
      approveRedemption id now st = (st, some (withId id d))) ∧
    (∀ d, Col.get st.redemptions id = some d →
      Doc.get d "status" ≠ some (JsVal.str "approved") →
      ∃ d', Col.get (approveRedemption id now st).1.redemptions id = some d' ∧
        Doc.get d' "status" = some (JsVal.str "approved") ∧
        Doc.get d' "approvedAt" = some (JsVal.time now) ∧
        (approveRedemption id now st).2 = some (withId id d')) ∧
    approveRedemption id now2 (approveRedemption id now st).1 =
      approveRedemption id now st := by
  have hnone : ∀ n : ℚ, Col.get st.redemptions id = none →
      approveRedemption id n st = (st, none) := by
    intro n h
    unfold approveRedemption
    rw [h]
  have happroved : ∀ (n : ℚ) d, Col.get st.redemptions id = some d →
      Doc.get d "status" = some (JsVal.str "approved") →
      approveRedemption id n st = (st, some (withId id d)) := by
    intro n d h hs
    unfold approveRedemption
    rw [h]
    simp [hs]
  have hgm : ∀ (n : ℚ) d, Col.get st.redemptions id = some d →
      Col.get (approveStore st id n).redemptions id
        = some (Doc.merge d (approvedUpd n)) := by
    intro n d h
    exact Col.get_mergeSet_self st.redemptions id _ d h
  have hpending : ∀ (n : ℚ) d, Col.get st.redemptions id = some d →
      Doc.get d "status" ≠ some (JsVal.str "approved") →
      approveRedemption id n st =
        (approveStore st id n,
          some (withId id (Doc.merge d (approvedUpd n)))) := by
    intro n d h hs
    unfold approveRedemption
    rw [h]
    dsimp only
    rw [if_neg hs]
    show (approveStore st id n,
        (Col.get (approveStore st id n).redemptions id).map (withId id))
      = (approveStore st id n,
          some (withId id (Doc.merge d (approvedUpd n))))
    rw [hgm n d h]
    rfl
  refine ⟨hnone now, happroved now, ?_, ?_⟩
  · intro d h hs
    refine ⟨Doc.merge d (approvedUpd now), ?_, ?_, ?_, ?_⟩
    · rw [hpending now d h hs]
      exact hgm now d h
    · rw [Doc.get_merge]
      simp [approvedUpd, Doc.get, List.lookup]
    · rw [Doc.get_merge]
      simp [approvedUpd, Doc.get, List.lookup]
    · rw [hpending now d h hs]
  · cases hg : Col.get st.redemptions id with
    | none =>
        rw [hnone now hg]
        exact hnone now2 hg
    | some d =>
        by_cases hs : Doc.get d "status" = some (JsVal.str "approved")
        · rw [happroved now d hg hs]
          exact happroved now2 d hg hs
        · rw [hpending now d hg hs]
          have hs' : Doc.get (Doc.merge d (approvedUpd now)) "status"
              = some (JsVal.str "approved") := by
            rw [Doc.get_merge]
            simp [approvedUpd, Doc.get, List.lookup]
          unfold approveRedemption
          rw [show Col.get (approveStore st id now, some (withId id
              (Doc.merge d (approvedUpd now)))).1.redemptions id
              = some (Doc.merge d (approvedUpd now)) from hgm now d hg]
          simp [hs']

/-- Witness for C4: approving the pending redemption `r1` at time 7 sets
`status = approved` and `approvedAt = 7`, and approving again at time 99
returns the first call's output unchanged. -/
theorem C4_approve_idempotent_witness :
    (∃ d', Col.get (approveRedemption "r1" 7 pendingStore).1.redemptions "r1"
        = some d' ∧
      Doc.get d' "status" = some (JsVal.str "approved") ∧
      Doc.get d' "approvedAt" = some (JsVal.time 7) ∧
      (approveRedemption "r1" 7 pendingStore).2 = some (withId "r1" d')) ∧
    approveRedemption "r1" 99 (approveRedemption "r1" 7 pendingStore).1 =
      approveRedemption "r1" 7 pendingStore := by
  obtain ⟨-, -, h3, h4⟩ := C4_approve_idempotent pendingStore "r1" 7 99
  refine ⟨h3 [("email", JsVal.str "u@x.com"), ("grams", JsVal.num 2),
    ("status", JsVal.str "pending")] (by decide) (by decide), h4⟩

/-- Counterexample to C5 as stated: an upsert whose input data itself
contains a `createdAt` field overwrites the prior record's `createdAt`
(the spread `{ ...existing, ...rest, updatedAt: now }` lets `rest` win),
so `createdAt` is not preserved "for any input data". -/
theorem C5_createdAt_not_preserved :
    ∃ r, createUser
        [("email", JsVal.str "e@x.com"), ("createdAt", JsVal.time 99)]
        20 userStore = Except.ok r ∧
      (∃ stored, Col.get r.1.users "e@x.com" = some stored ∧
        Doc.get stored "createdAt" = some (JsVal.time 99)) ∧
      Doc.get ((Col.get userStore.users "e@x.com").getD []) "createdAt"
        = some (JsVal.time 0) ∧
      JsVal.time 99 ≠ JsVal.time 0 := by
  refine ⟨_, rfl, ⟨_, rfl, ?_⟩, by decide, by decide⟩
  decide

/-- C5 (amended): an upsert on an existing user whose input does not name
`createdAt` preserves the prior `createdAt`; any field the input does not
name (other than `updatedAt`) persists unchanged; and `updatedAt` is
refreshed to now on every call. -/
theorem C5_upsert_merge (data : Doc) (now : ℚ) (st : Store) (e : String)
    (existing : Doc)
    (he : Doc.get data "email" = some (JsVal.str e)) (hne : e ≠ "")
    (hex : Col.get st.users e = some existing) :
    ∃ r, createUser data now st = Except.ok r ∧
      ∃ stored, Col.get r.1.users e = some stored ∧
        Doc.get stored "updatedAt" = some (JsVal.time now) ∧
        (∀ k, Doc.get data k = none → k ≠ "updatedAt" →
          Doc.get stored k = Doc.get existing k) ∧
        (Doc.get data "createdAt" = none →
          Doc.get stored "createdAt" = Doc.get existing "createdAt") := by
  set X := Doc.merge (Doc.merge existing (Doc.erase data "email"))
    [("updatedAt", JsVal.time now)] with hXdef
  have hstored : Col.get (Col.mergeSet st.users e X) e
      = some (Doc.merge existing X) :=
    Col.get_mergeSet_self _ _ _ _ hex
  have hcu : createUser data now st =
      Except.ok ({ st with users := Col.mergeSet st.users e X },
        withId e (Doc.merge existing X)) := by
    unfold createUser
    rw [he]
    dsimp only
    rw [if_neg hne, hex]
    dsimp only
    rw [hstored, ← hXdef]
    rfl
  have hXupd : Doc.get X "updatedAt" = some (JsVal.time now) := by
    rw [hXdef, Doc.get_merge]
    simp [Doc.get_cons]
  have hframe : ∀ k, Doc.get data k = none → k ≠ "updatedAt" →
      Doc.get (Doc.merge existing X) k = Doc.get existing k := by
    intro k hk hk2
    have hrest : Doc.get (Doc.erase data "email") k = none := by
      rw [Doc.get_erase]
      by_cases hke : k = "email"
      · rw [if_pos hke]
      · rw [if_neg hke]
        exact hk
    have hXk : Doc.get X k = Doc.get existing k := by
      rw [hXdef, Doc.get_merge]
      rw [show Doc.get [("updatedAt", JsVal.time now)] k = none by
        rw [Doc.get_cons, if_neg hk2]
        rfl]
      rw [Doc.get_merge, hrest]
    rw [Doc.get_merge, hXk]
    cases Doc.get existing k <;> rfl
  refine ⟨_, hcu, Doc.merge existing X, hstored, ?_, hframe, ?_⟩
  · rw [Doc.get_merge, hXupd]
  · intro hca
    exact hframe "createdAt" hca (by decide)

/-- Witness for C5 (amended): upserting `{email, displayName: "B"}` over
the stored user (no `createdAt` in the input) keeps `createdAt = 0` and
refreshes `updatedAt` to the new call time. -/
theorem C5_upsert_merge_witness :
    ∃ r, createUser [("email", JsVal.str "e@x.com"),
        ("displayName", JsVal.str "B")] 20 userStore = Except.ok r ∧
      ∃ stored, Col.get r.1.users "e@x.com" = some stored ∧
        Doc.get stored "updatedAt" = some (JsVal.time 20) ∧
        Doc.get stored "createdAt" = some (JsVal.time 0) := by
  obtain ⟨r, hok, stored, hget, hupd, hframe, hca⟩ :=
    C5_upsert_merge [("email", JsVal.str "e@x.com"),
      ("displayName", JsVal.str "B")] 20 userStore "e@x.com"
      [("email", JsVal.str "e@x.com"), ("displayName", JsVal.str "A"),
       ("createdAt", JsVal.time 0), ("updatedAt", JsVal.time 0)]
      (by decide) (by decide) (by decide)
  refine ⟨r, hok, stored, hget, hupd, ?_⟩
  rw [hca (by decide)]
  decide

/-- C6: the code filters `listOrders` on the field `email`, but order
attribution writes `userEmail` (see `claimOrder` and `getDashboardData`),
so an order claimed by `first@x.com` is not returned by
`listOrders("first@x.com")` — the filtered query returns `[]` even though
the order exists, while the unfiltered call returns it. -/
theorem C6_listOrders_email_field_mismatch :
    listOrders (some "first@x.com") claimedStore = [] ∧
    Col.get claimedStore.orders "o1" = some
      [("orderId", JsVal.str "X"),
       ("userEmail", JsVal.str "first@x.com"),
       ("rewardGrams", JsVal.num 4)] ∧
    listOrders none claimedStore =
      [withId "o1"
        [("orderId", JsVal.str "X"),
         ("userEmail", JsVal.str "first@x.com"),
         ("rewardGrams", JsVal.num 4)]] ∧
    ordersFor claimedStore "first@x.com" =
      [withId "o1"
        [("orderId", JsVal.str "X"),
         ("userEmail", JsVal.str "first@x.com"),
         ("rewardGrams", JsVal.num 4)]] := by
  refine ⟨by decide, by decide, rfl, rfl⟩

/-- Counterexample to C7 as stated: `createRedemption` stores the input
verbatim (plus `_customId`), so omitting `status` leaves the stored record
with no `status` field rather than `pending`. -/
theorem C7_status_not_defaulted :
    Doc.get (createRedemption [("email", JsVal.str "u@x.com"),
      ("grams", JsVal.num 2)] "c" "r9" emptyStore).2 "status" = none ∧
    Col.get (createRedemption [("email", JsVal.str "u@x.com"),
      ("grams", JsVal.num 2)] "c" "r9" emptyStore).1.redemptions "r9" =
      some [("_customId", JsVal.str "c"), ("email", JsVal.str "u@x.com"),
        ("grams", JsVal.num 2)] ∧
    (none : Option JsVal) ≠ some (JsVal.str "pending") := by
  refine ⟨rfl, by decide, by decide⟩

/-- C7 (amended): the stored redemption's `status` equals the input's
`status` field — `pending` only when the caller supplied it, absent when
the caller omitted it; the record is the input plus a `_customId`. -/
theorem C7_status_passthrough (data : Doc) (cid did : String) (st : Store) :
    (createRedemption data cid did st).1.redemptions
      = st.redemptions ++ [(did, data.insert "_customId" (JsVal.str cid))] ∧
    (createRedemption data cid did st).2
      = withId did (data.insert "_customId" (JsVal.str cid)) ∧
    Doc.get (data.insert "_customId" (JsVal.str cid)) "status"
      = Doc.get data "status" := by
  refine ⟨rfl, rfl, ?_⟩
  rw [Doc.get_insert]
  rw [if_neg (by decide)]

/-- Counterexample to C8 as stated: `setGoldPrice("abc")` does not fail
with a validation error — it completes, returns its argument, and silently
stores the coercion's `NaN` as the price. -/
theorem C8_setGoldPrice_stores_nan :
    (setGoldPrice (JsVal.str "abc") 7 emptyStore).2 = JsVal.str "abc" ∧
    ∃ d, Col.get (setGoldPrice (JsVal.str "abc") 7 emptyStore).1.config
        "goldPrice" = some d ∧
      Doc.get d "price" = some JsVal.nan := by
  refine ⟨rfl, _, rfl, ?_⟩
  decide

/-- C8 (amended): for every input, `setGoldPrice` merge-writes
`parseFloat(price)` with `updatedAt = now` and returns its argument; it
has no failure path, so a non-numeric input silently stores `NaN`. -/
theorem C8_setGoldPrice_coerces (price : JsVal) (now : ℚ) (st : Store) :
    ∃ d, Col.get (setGoldPrice price now st).1.config "goldPrice" = some d ∧
      Doc.get d "price" = some (parseFloatJs price) ∧
      Doc.get d "updatedAt" = some (JsVal.time now) ∧
      (setGoldPrice price now st).2 = price := by
  unfold setGoldPrice
  cases hc : Col.get st.config "goldPrice" with
  | none =>
      refine ⟨_, Col.get_mergeSet_new st.config "goldPrice" _ hc, ?_, ?_, rfl⟩
      · rw [Doc.get_cons]
        rfl
      · rw [Doc.get_cons, if_neg (by decide), Doc.get_cons]
        rfl
  | some old =>
      refine ⟨_, Col.get_mergeSet_self st.config "goldPrice" _ old hc,
        ?_, ?_, rfl⟩
      · rw [Doc.get_merge, Doc.get_cons]
        rfl
      · rw [Doc.get_merge, Doc.get_cons, if_neg (by decide), Doc.get_cons]
        rfl

theorem jsMul_num (a b : ℚ) :
    JsVal.jsMul (JsVal.num a) (JsVal.num b) = JsVal.num (a * b) := rfl

/-- An order without a `createdAt` is treated as earned now and never
passes the vesting check, whatever the current time. -/
theorem vestedCheck_none_eq_false (now : ℚ) : vestedCheck now none = false := by
  unfold vestedCheck
  simp [JsVal.jsSub, JsVal.toNumber, JsVal.jsGE, thirtyDaysMs]

/-- C9: from an empty store with no gold-price record,
`createOrder {rewardGrams: 5, orderId: "X"}` → `claimOrder("X", "a@b.com")`
→ dashboard for `a@b.com` at default price 50 gives `totalGrams = 5`,
`totalValue = 250` and `redeemableGrams = 0`, for every current time `now`
(the stored order has no `createdAt`, so it is treated as earned now and
is not vested). -/
theorem C9_round_trip (now : ℚ) :
    ∃ st₁ o, createOrder [("rewardGrams", JsVal.num 5),
        ("orderId", JsVal.str "X")] "c1" "d1" emptyStore = (st₁, o) ∧
    ∃ r, claimOrder "X" "a@b.com" st₁ = Except.ok r ∧
    ∃ d, getDashboardData "a@b.com" (JsVal.num 50) now r.1 = Except.ok d ∧
      d.totalGrams = JsVal.num 5 ∧ d.totalValue = JsVal.num 250 ∧
      d.redeemableGrams = JsVal.num 0 := by
  refine ⟨_, _, rfl, ?_⟩
  refine ⟨(⟨[("d1", [("userEmail", JsVal.str "a@b.com"),
      ("_customId", JsVal.str "c1"), ("rewardGrams", JsVal.num 5),
      ("orderId", JsVal.str "X")])], [], [], [], []⟩,
    some [("userEmail", JsVal.str "a@b.com"), ("_customId", JsVal.str "c1"),
      ("rewardGrams", JsVal.num 5), ("orderId", JsVal.str "X"),
      ("id", JsVal.str "d1")]), rfl, ?_⟩
  simp only [getDashboardData]
  rw [show ordersFor ⟨[("d1", [("userEmail", JsVal.str "a@b.com"),
      ("_customId", JsVal.str "c1"), ("rewardGrams", JsVal.num 5),
      ("orderId", JsVal.str "X")])], [], [], [], []⟩ "a@b.com" =
    [[("userEmail", JsVal.str "a@b.com"), ("_customId", JsVal.str "c1"),
      ("rewardGrams", JsVal.num 5), ("orderId", JsVal.str "X"),
      ("id", JsVal.str "d1")]] from rfl]
  rw [List.foldl_cons, List.foldl_nil]
  have hstep : orderStep now (getGoldPrice (JsVal.num 50)
      ⟨[("d1", [("userEmail", JsVal.str "a@b.com"),
        ("_customId", JsVal.str "c1"), ("rewardGrams", JsVal.num 5),
        ("orderId", JsVal.str "X")])], [], [], [], []⟩)
      ⟨JsVal.num 0, JsVal.num 0, JsVal.num 0⟩
      [("userEmail", JsVal.str "a@b.com"), ("_customId", JsVal.str "c1"),
        ("rewardGrams", JsVal.num 5), ("orderId", JsVal.str "X"),
        ("id", JsVal.str "d1")] =
      ⟨JsVal.num 5, JsVal.num 250, JsVal.num 0⟩ := by
    unfold orderStep
    rw [show Doc.get [("userEmail", JsVal.str "a@b.com"),
        ("_customId", JsVal.str "c1"), ("rewardGrams", JsVal.num 5),
        ("orderId", JsVal.str "X"), ("id", JsVal.str "d1")] "createdAt"
      = none from rfl]
    rw [vestedCheck_none_eq_false]
    rw [show Doc.gramsOr0 [("userEmail", JsVal.str "a@b.com"),
        ("_customId", JsVal.str "c1"), ("rewardGrams", JsVal.num 5),
        ("orderId", JsVal.str "X"), ("id", JsVal.str "d1")] "rewardGrams"
      = JsVal.num 5 from rfl]
    rw [show getGoldPrice (JsVal.num 50)
        ⟨[("d1", [("userEmail", JsVal.str "a@b.com"),
          ("_customId", JsVal.str "c1"), ("rewardGrams", JsVal.num 5),
          ("orderId", JsVal.str "X")])], [], [], [], []⟩ = JsVal.num 50
      from rfl]
    dsimp only
    rw [jsMul_num, jsAdd_num, jsAdd_num]
    simp
    norm_num
  rw [hstep]
  rw [show outstandingRedemptionsFor ⟨[("d1",
      [("userEmail", JsVal.str "a@b.com"), ("_customId", JsVal.str "c1"),
       ("rewardGrams", JsVal.num 5), ("orderId", JsVal.str "X")])],
      [], [], [], []⟩ "a@b.com" = [] from rfl]
  rw [List.foldl_nil]
  rw [show JsVal.jsMax (JsVal.jsSub (JsVal.num 0) (JsVal.num 0))
      (JsVal.num 0) = JsVal.num 0 from by
    rw [jsSub_num, jsMax_num]
    norm_num]
  rw [show toFixed2 (JsVal.num 250) = Except.ok (JsVal.num 250) from by
    show Except.ok (JsVal.num ((round ((250 : ℚ) * 100) : ℤ) / 100))
      = Except.ok (JsVal.num 250)
    rw [show round ((250 : ℚ) * 100) = 25000 from by norm_num [round_eq]]
    norm_num]
  simp only [Except.map]
  exact ⟨_, rfl, rfl, rfl, rfl⟩

/-- C10: `getGoldPrice` applies the caller default only when the
`goldPrice` document is absent; when the document exists the `price` field
is returned verbatim, so a document without a `price` field yields
`undefined` rather than the default. -/
theorem C10_goldPrice_default_only_when_absent (dp : JsVal) (st : Store) :
    (Col.get st.config "goldPrice" = none → getGoldPrice dp st = dp) ∧
    (∀ d, Col.get st.config "goldPrice" = some d →
      getGoldPrice dp st = (Doc.get d "price").getD JsVal.undef) ∧
    (getGoldPrice (JsVal.num 60) priceLessStore = JsVal.undef ∧
      JsVal.undef ≠ JsVal.num 60) := by
  refine ⟨?_, ?_, by decide, by decide⟩
  · intro h
    unfold getGoldPrice
    rw [h]
  · intro d h
    unfold getGoldPrice
    rw [h]

/-- Witness for C10 at the config document that exists without a `price`
field and default 60. -/
theorem C10_goldPrice_witness :
    getGoldPrice (JsVal.num 60) priceLessStore = JsVal.undef :=
  ((C10_goldPrice_default_only_when_absent (JsVal.num 60)
    priceLessStore).2.1 [("updatedAt", JsVal.time 3)] (by decide)).trans
      (by decide)
